import Mathlib

/-!
Shallow embedding of the intervention-chain core of the zeroclaw
repository: the verdict model, the intervention context, the chain
(`InterventionChain.process`), and the four built-in handlers
(`TripwireHandler`, `SingleActionHandler`, `DepthGuardHandler`,
`ConvergenceDetector`).

Modelling conventions:
* Rust `f64` values (similarity threshold, Jaccard similarity) are
  modelled as exact rationals `ℚ`.
* The `AtomicU32` counter of `SingleActionHandler` is modelled as a
  `Nat` reduced modulo `2 ^ 32` at each increment, matching the
  wrapping semantics of `AtomicU32::fetch_add`.
* Stateful handlers are modelled with explicit state passing:
  `intercept` returns the verdict together with the updated handler.
* The external regex engine used by `TripwireHandler` is abstracted as
  an arbitrary compile function `String → Option Regex`, where a
  `Regex` carries its source string and its match predicate.
-/

/-- Verdict returned by an intervention handler (traits.rs). -/
inductive InterventionVerdict where
  | Allow : InterventionVerdict
  | Modify : String → InterventionVerdict
  | Drop : String → InterventionVerdict
  | Halt : String → InterventionVerdict
deriving DecidableEq

/-- Message direction for intervention context (traits.rs). -/
inductive MessageDirection where
  | Inbound : MessageDirection
  | OutboundRequest : MessageDirection
  | InboundResponse : MessageDirection
  | ToolInvocation : MessageDirection
  | ToolResult : MessageDirection
  | OutboundResponse : MessageDirection
deriving DecidableEq

/-- Context provided to intervention handlers (traits.rs). -/
structure InterventionContext where
  direction : MessageDirection
  agent_id : Option String
  tool_name : Option String
  provider : Option String
  model : Option String
deriving DecidableEq

/-- A handler, as the chain sees it: content and context in, verdict out.
The chain's processing loop (`InterventionChain::process`) only depends on
the verdict each handler returns for the running content. -/
def Handler : Type := String → InterventionContext → InterventionVerdict

/-- The loop body of `InterventionChain::process`: thread the running
content through the handlers; a `Drop` or `Halt` is returned at once
(`Sum.inl`), otherwise the final running content is returned
(`Sum.inr`). -/
def runHandlers : List Handler → String → InterventionContext → InterventionVerdict ⊕ String
  | [], current, _ => Sum.inr current
  | h :: rest, current, ctx =>
    match h current ctx with
    | InterventionVerdict.Allow => runHandlers rest current ctx
    | InterventionVerdict.Modify new => runHandlers rest new ctx
    | InterventionVerdict.Drop reason => Sum.inl (InterventionVerdict.Drop reason)
    | InterventionVerdict.Halt reason => Sum.inl (InterventionVerdict.Halt reason)

/-- `InterventionChain::process` (traits.rs): run the handlers in
registration order; after the loop, return `Modify current` when the
running content differs from the original input and `Allow` otherwise. -/
def InterventionChain.process (handlers : List Handler) (content : String)
    (ctx : InterventionContext) : InterventionVerdict :=
  match runHandlers handlers content ctx with
  | Sum.inl v => v
  | Sum.inr current =>
      if current ≠ content then InterventionVerdict.Modify current
      else InterventionVerdict.Allow

/-- C1: `Chain.process` threads a running content through the handlers in
registration order: `Allow` continues with the content unchanged, `Modify new`
continues with `new`, and a `Drop` or `Halt` is returned to the caller at once,
independently of the remaining handlers; when no handler dropped or halted, the
chain returns `Allow` exactly when the final running content equals the
original input and `Modify final` otherwise; the empty chain returns `Allow`. -/
theorem chain_process_spec :
    (∀ content ctx, InterventionChain.process [] content ctx = InterventionVerdict.Allow)
    ∧ (∀ (h : Handler) rest current ctx, h current ctx = InterventionVerdict.Allow →
        runHandlers (h :: rest) current ctx = runHandlers rest current ctx)
    ∧ (∀ (h : Handler) rest current new ctx, h current ctx = InterventionVerdict.Modify new →
        runHandlers (h :: rest) current ctx = runHandlers rest new ctx)
    ∧ (∀ (h : Handler) rest current reason ctx, h current ctx = InterventionVerdict.Drop reason →
        runHandlers (h :: rest) current ctx = Sum.inl (InterventionVerdict.Drop reason))
    ∧ (∀ (h : Handler) rest current reason ctx, h current ctx = InterventionVerdict.Halt reason →
        runHandlers (h :: rest) current ctx = Sum.inl (InterventionVerdict.Halt reason))
    ∧ (∀ handlers content ctx v, runHandlers handlers content ctx = Sum.inl v →
        InterventionChain.process handlers content ctx = v
          ∧ ∃ reason, v = InterventionVerdict.Drop reason ∨ v = InterventionVerdict.Halt reason)
    ∧ (∀ handlers content ctx final, runHandlers handlers content ctx = Sum.inr final →
        InterventionChain.process handlers content ctx =
          if final = content then InterventionVerdict.Allow
          else InterventionVerdict.Modify final) := by
  refine ⟨?_, ?_, ?_, ?_, ?_, ?_, ?_⟩
  · intro content ctx
    simp [InterventionChain.process, runHandlers]
  · intro h rest current ctx hv
    simp [runHandlers, hv]
  · intro h rest current new ctx hv
    simp [runHandlers, hv]
  · intro h rest current reason ctx hv
    simp [runHandlers, hv]
  · intro h rest current reason ctx hv
    simp [runHandlers, hv]
  · intro handlers content ctx v hrun
    refine ⟨by simp [InterventionChain.process, hrun], ?_⟩
    revert hrun
    induction handlers generalizing content with
    | nil => intro hrun; simp [runHandlers] at hrun
    | cons h rest ih =>
      simp only [runHandlers]
      cases hv : h content ctx with
      | Allow => intro hrun; exact ih _ hrun
      | Modify new => intro hrun; exact ih _ hrun
      | Drop reason => intro hrun; exact ⟨reason, Or.inl (by injection hrun with h1; exact h1.symm)⟩
      | Halt reason => intro hrun; exact ⟨reason, Or.inr (by injection hrun with h1; exact h1.symm)⟩
  · intro handlers content ctx final hrun
    simp only [InterventionChain.process, hrun]
    by_cases hfc : final = content
    · simp [hfc]
    · simp [hfc]

/-- A sample context used in concrete instantiations. -/
def inboundCtx : InterventionContext :=
  { direction := MessageDirection.Inbound, agent_id := none, tool_name := none,
    provider := none, model := none }

/-- Witness for C1: a one-handler chain that drops is processed to that drop,
and the empty chain allows. -/
theorem chain_process_spec_witness :
    InterventionChain.process [fun _ _ => InterventionVerdict.Drop "no"] "x" inboundCtx =
      InterventionVerdict.Drop "no"
    ∧ InterventionChain.process [] "x" inboundCtx = InterventionVerdict.Allow := by
  constructor
  · exact (chain_process_spec.2.2.2.2.2.1
      [fun _ _ => InterventionVerdict.Drop "no"] "x" inboundCtx
      (InterventionVerdict.Drop "no") rfl).1
  · exact chain_process_spec.1 "x" inboundCtx

/-- Modulus of the `AtomicU32` counter used by `SingleActionHandler`. -/
def U32_MOD : Nat := 2 ^ 32

/-- `SingleActionHandler` (handlers.rs): per-turn tool-invocation counter
(`AtomicU32`) together with the configured per-turn limit. -/
structure SingleActionHandler where
  calls_this_turn : Nat
  max_per_turn : Nat
deriving DecidableEq

/-- `SingleActionHandler::new`: fresh counter, configured limit. -/
def SingleActionHandler.new (max_per_turn : Nat) : SingleActionHandler :=
  ⟨0, max_per_turn⟩

/-- `SingleActionHandler::reset`: store 0 into the counter. -/
def SingleActionHandler.reset (h : SingleActionHandler) : SingleActionHandler :=
  ⟨0, h.max_per_turn⟩

/-- `SingleActionHandler::count`: load the counter. -/
def SingleActionHandler.count (h : SingleActionHandler) : Nat :=
  h.calls_this_turn

/-- The `Drop` reason built by `SingleActionHandler::intercept` from the
limit and the attempted ordinal (`count + 1`, as a `u32`). -/
def dropMessage (max_per_turn attempted : Nat) : String :=
  "ACT discipline: max " ++ toString max_per_turn ++
    " tool call(s) per turn exceeded (attempted #" ++ toString attempted ++ ")"

/-- `SingleActionHandler::intercept` (handlers.rs): non-ToolInvocation
directions pass through; a ToolInvocation does `fetch_add(1)` (wrapping at
`2 ^ 32`) and drops exactly when the pre-increment count already reached the
limit. -/
def SingleActionHandler.intercept (h : SingleActionHandler) (content : String)
    (ctx : InterventionContext) : InterventionVerdict × SingleActionHandler :=
  if ctx.direction ≠ MessageDirection.ToolInvocation then
    (InterventionVerdict.Allow, h)
  else
    let count := h.calls_this_turn
    let next := (count + 1) % U32_MOD
    if h.max_per_turn ≤ count then
      (InterventionVerdict.Drop (dropMessage h.max_per_turn next), ⟨next, h.max_per_turn⟩)
    else
      (InterventionVerdict.Allow, ⟨next, h.max_per_turn⟩)

/-- A canonical ToolInvocation context. -/
def tiCtx : InterventionContext :=
  { direction := MessageDirection.ToolInvocation, agent_id := none, tool_name := none,
    provider := none, model := none }

/-- State of a `SingleActionHandler` after `k` ToolInvocation intercepts. -/
def afterTI (h : SingleActionHandler) : Nat → SingleActionHandler
  | 0 => h
  | k + 1 => ((afterTI h k).intercept "" tiCtx).2

lemma singleAction_intercept_ti (h : SingleActionHandler) (c : String)
    (ctx : InterventionContext) (hd : ctx.direction = MessageDirection.ToolInvocation) :
    h.intercept c ctx =
      ((if h.max_per_turn ≤ h.calls_this_turn then
          InterventionVerdict.Drop
            (dropMessage h.max_per_turn ((h.calls_this_turn + 1) % U32_MOD))
        else InterventionVerdict.Allow),
       ⟨(h.calls_this_turn + 1) % U32_MOD, h.max_per_turn⟩) := by
  by_cases hm : h.max_per_turn ≤ h.calls_this_turn
  · simp [SingleActionHandler.intercept, hd, hm]
  · simp [SingleActionHandler.intercept, hd, hm]

lemma singleAction_intercept_other (h : SingleActionHandler) (c : String)
    (ctx : InterventionContext) (hd : ctx.direction ≠ MessageDirection.ToolInvocation) :
    h.intercept c ctx = (InterventionVerdict.Allow, h) := by
  simp [SingleActionHandler.intercept, hd]

lemma afterTI_new (N k : Nat) :
    (afterTI (SingleActionHandler.new N) k).calls_this_turn = k % U32_MOD
      ∧ (afterTI (SingleActionHandler.new N) k).max_per_turn = N := by
  induction k with
  | zero => simp [afterTI, SingleActionHandler.new]
  | succ k ih =>
    rw [afterTI, singleAction_intercept_ti _ _ _ rfl]
    simp [ih.1, ih.2, Nat.mod_add_mod]

lemma afterTI_count (N k : Nat) :
    (afterTI (SingleActionHandler.new N) k).count = k % U32_MOD := by
  simp [SingleActionHandler.count, (afterTI_new N k).1]


/-- C4 (amended): non-ToolInvocation directions pass through without touching
the counter; a ToolInvocation increments the counter modulo `2 ^ 32` and drops
exactly when the pre-increment count already reached the limit; from a fresh
handler with limit `N < 2 ^ 32` the first `N` ToolInvocation intercepts allow,
the `(N+1)`-th drops stating the limit and the attempted ordinal reduced
modulo `2 ^ 32`, and, provided `N ≥ 1`, the first ToolInvocation after a
`reset` allows again. -/
theorem single_action_limit_spec :
    (∀ (h : SingleActionHandler) c ctx,
        ctx.direction ≠ MessageDirection.ToolInvocation →
        h.intercept c ctx = (InterventionVerdict.Allow, h))
    ∧ (∀ (h : SingleActionHandler) c ctx,
        ctx.direction = MessageDirection.ToolInvocation →
        h.intercept c ctx =
          ((if h.max_per_turn ≤ h.calls_this_turn then
              InterventionVerdict.Drop
                (dropMessage h.max_per_turn ((h.calls_this_turn + 1) % U32_MOD))
            else InterventionVerdict.Allow),
           ⟨(h.calls_this_turn + 1) % U32_MOD, h.max_per_turn⟩))
    ∧ (∀ N k c ctx, ctx.direction = MessageDirection.ToolInvocation →
        k < N → N < U32_MOD →
        ((afterTI (SingleActionHandler.new N) k).intercept c ctx).1 =
          InterventionVerdict.Allow)
    ∧ (∀ N c ctx, ctx.direction = MessageDirection.ToolInvocation → N < U32_MOD →
        ((afterTI (SingleActionHandler.new N) N).intercept c ctx).1 =
          InterventionVerdict.Drop (dropMessage N ((N + 1) % U32_MOD)))
    ∧ (∀ (h : SingleActionHandler) c ctx,
        ctx.direction = MessageDirection.ToolInvocation → 1 ≤ h.max_per_turn →
        (h.reset.intercept c ctx).1 = InterventionVerdict.Allow) := by
  refine ⟨?_, ?_, ?_, ?_, ?_⟩
  · intro h c ctx hd
    exact singleAction_intercept_other h c ctx hd
  · intro h c ctx hd
    exact singleAction_intercept_ti h c ctx hd
  · intro N k c ctx hd hk hN
    rw [singleAction_intercept_ti _ _ _ hd, (afterTI_new N k).1, (afterTI_new N k).2,
      Nat.mod_eq_of_lt (hk.trans hN)]
    simp [Nat.not_le.mpr hk]
  · intro N c ctx hd hN
    rw [singleAction_intercept_ti _ _ _ hd, (afterTI_new N N).1, (afterTI_new N N).2,
      Nat.mod_eq_of_lt hN]
    simp
  · intro h c ctx hd hmax
    rw [singleAction_intercept_ti _ _ _ hd]
    have : ¬ (h.reset.max_per_turn ≤ h.reset.calls_this_turn) := by
      simp only [SingleActionHandler.reset]
      omega
    simp [this]

/-- Witness for C4: with limit 1, the first ToolInvocation after a reset
is allowed. -/
theorem single_action_limit_spec_witness :
    ((SingleActionHandler.new 1).reset.intercept "x" tiCtx).1 = InterventionVerdict.Allow :=
  single_action_limit_spec.2.2.2.2 (SingleActionHandler.new 1) "x" tiCtx rfl (by decide)

/-- Counterexample for C4 as stated: with limit 0, the first ToolInvocation
after a reset is dropped, not allowed; and with limit `2 ^ 32 - 1` the
`(N+1)`-th drop message reports attempted ordinal 0 (the `u32` wrap of
`N + 1`), not the true ordinal `2 ^ 32`. -/
theorem single_action_limit_counterexample :
    ((afterTI (SingleActionHandler.new 0) 1).reset.intercept "" tiCtx).1 =
      InterventionVerdict.Drop (dropMessage 0 1)
    ∧ ((afterTI (SingleActionHandler.new (U32_MOD - 1)) (U32_MOD - 1)).intercept "" tiCtx).1 =
      InterventionVerdict.Drop (dropMessage (U32_MOD - 1) 0)
    ∧ dropMessage (U32_MOD - 1) 0 ≠ dropMessage (U32_MOD - 1) U32_MOD := by
  refine ⟨?_, ?_, ?_⟩
  · have hreset : (afterTI (SingleActionHandler.new 0) 1).reset = SingleActionHandler.new 0 := by
      show (⟨0, (afterTI (SingleActionHandler.new 0) 1).max_per_turn⟩ : SingleActionHandler) =
        SingleActionHandler.new 0
      rw [(afterTI_new 0 1).2]
      rfl
    rw [hreset, singleAction_intercept_ti _ _ _ rfl]
    norm_num [SingleActionHandler.new, U32_MOD]
  · rw [singleAction_intercept_ti _ _ _ rfl,
      (afterTI_new (U32_MOD - 1) (U32_MOD - 1)).1,
      (afterTI_new (U32_MOD - 1) (U32_MOD - 1)).2,
      Nat.mod_eq_of_lt (by norm_num [U32_MOD]),
      Nat.sub_add_cancel (by norm_num [U32_MOD] : 1 ≤ U32_MOD), Nat.mod_self]
    simp
  · decide

/-- C9 (amended): once `N ≤ k < 2 ^ 32` ToolInvocation intercepts have occurred
since the last reset, the next ToolInvocation intercept drops, reporting the
attempted ordinal `k + 1` reduced modulo `2 ^ 32` (equal to `k + 1`, hence
strictly increasing, while `k + 1 < 2 ^ 32`); the counter counts every
ToolInvocation intercept modulo `2 ^ 32`, dropped ones included. -/
theorem single_action_saturation_spec :
    (∀ N k c ctx, ctx.direction = MessageDirection.ToolInvocation →
        N ≤ k → k < U32_MOD →
        ((afterTI (SingleActionHandler.new N) k).intercept c ctx).1 =
          InterventionVerdict.Drop (dropMessage N ((k + 1) % U32_MOD)))
    ∧ (∀ N k, (afterTI (SingleActionHandler.new N) k).count = k % U32_MOD)
    ∧ (∀ N k c ctx, ctx.direction = MessageDirection.ToolInvocation →
        N ≤ k → k + 1 < U32_MOD →
        ((afterTI (SingleActionHandler.new N) k).intercept c ctx).1 =
          InterventionVerdict.Drop (dropMessage N (k + 1))) := by
  have hmain : ∀ N k c ctx, ctx.direction = MessageDirection.ToolInvocation →
      N ≤ k → k < U32_MOD →
      ((afterTI (SingleActionHandler.new N) k).intercept c ctx).1 =
        InterventionVerdict.Drop (dropMessage N ((k + 1) % U32_MOD)) := by
    intro N k c ctx hd hNk hk
    rw [singleAction_intercept_ti _ _ _ hd, (afterTI_new N k).1, (afterTI_new N k).2,
      Nat.mod_eq_of_lt hk]
    simp [hNk]
  refine ⟨hmain, ?_, ?_⟩
  · intro N k
    simp [SingleActionHandler.count, (afterTI_new N k).1]
  · intro N k c ctx hd hNk hk1
    rw [hmain N k c ctx hd hNk (Nat.lt_of_succ_lt hk1), Nat.mod_eq_of_lt hk1]

/-- Witness for C9: with limit 1, after one ToolInvocation the next one is
dropped as attempt number 2. -/
theorem single_action_saturation_spec_witness :
    ((afterTI (SingleActionHandler.new 1) 1).intercept "x" tiCtx).1 =
      InterventionVerdict.Drop (dropMessage 1 ((1 + 1) % U32_MOD)) :=
  single_action_saturation_spec.1 1 1 "x" tiCtx rfl (le_refl 1) (by norm_num [U32_MOD])

/-- Counterexample for C9 as stated: with limit 1, after `2 ^ 32`
ToolInvocation intercepts without a reset the counter has wrapped to 0, so the
next ToolInvocation is allowed again and `count` does not reflect the number
of intercepts. -/
theorem single_action_wrap_counterexample :
    ((afterTI (SingleActionHandler.new 1) U32_MOD).intercept "" tiCtx).1 =
      InterventionVerdict.Allow
    ∧ (afterTI (SingleActionHandler.new 1) U32_MOD).count = 0 := by
  constructor
  · rw [singleAction_intercept_ti _ _ _ rfl, (afterTI_new 1 U32_MOD).1,
      (afterTI_new 1 U32_MOD).2, Nat.mod_self]
    have h10 : ¬ (1 : Nat) ≤ 0 := by omega
    simp only [h10, if_false]
  · rw [afterTI_count 1 U32_MOD, Nat.mod_self]

/-- The apostrophe character, kept out of string literals. -/
def apos : String := String.singleton (Char.ofNat 39)

/-- The `Drop` reason built by `DepthGuardHandler::intercept`. -/
def depthGuardMsg (agent_id : String) : String :=
  "One-depth dispatch: agent " ++ apos ++ agent_id ++ apos ++ " cannot delegate further"

/-- `DepthGuardHandler::intercept` (handlers.rs): only ToolInvocation messages
are inspected; a present agent identity invoking the tool named "delegate" is
dropped; everything else is allowed. -/
def DepthGuardHandler.intercept (content : String) (ctx : InterventionContext) :
    InterventionVerdict :=
  if ctx.direction ≠ MessageDirection.ToolInvocation then InterventionVerdict.Allow
  else
    match ctx.agent_id with
    | none => InterventionVerdict.Allow
    | some agent_id =>
      match ctx.tool_name with
      | none => InterventionVerdict.Allow
      | some tool =>
        if tool = "delegate" then InterventionVerdict.Drop (depthGuardMsg agent_id)
        else InterventionVerdict.Allow

/-- C6: `DepthGuardHandler.intercept` allows every non-ToolInvocation message;
on a ToolInvocation it allows when no agent identity is present, drops naming
the agent when the identity is present and the tool name is exactly
"delegate", and allows under a present identity for any other tool name. -/
theorem depth_guard_spec :
    (∀ c ctx, ctx.direction ≠ MessageDirection.ToolInvocation →
        DepthGuardHandler.intercept c ctx = InterventionVerdict.Allow)
    ∧ (∀ c ctx, ctx.direction = MessageDirection.ToolInvocation →
        ctx.agent_id = none →
        DepthGuardHandler.intercept c ctx = InterventionVerdict.Allow)
    ∧ (∀ c ctx a, ctx.direction = MessageDirection.ToolInvocation →
        ctx.agent_id = some a → ctx.tool_name = some "delegate" →
        DepthGuardHandler.intercept c ctx = InterventionVerdict.Drop (depthGuardMsg a))
    ∧ (∀ c ctx a t, ctx.direction = MessageDirection.ToolInvocation →
        ctx.agent_id = some a → ctx.tool_name = some t → t ≠ "delegate" →
        DepthGuardHandler.intercept c ctx = InterventionVerdict.Allow) := by
  refine ⟨?_, ?_, ?_, ?_⟩
  · intro c ctx hd
    simp [DepthGuardHandler.intercept, hd]
  · intro c ctx hd ha
    simp [DepthGuardHandler.intercept, hd, ha]
  · intro c ctx a hd ha ht
    simp [DepthGuardHandler.intercept, hd, ha, ht]
  · intro c ctx a t hd ha ht htd
    simp [DepthGuardHandler.intercept, hd, ha, ht, htd]

/-- A ToolInvocation context for the "delegate" tool issued by a delegate. -/
def delegatingWorkerCtx : InterventionContext :=
  { direction := MessageDirection.ToolInvocation, agent_id := some "worker-1",
    tool_name := some "delegate", provider := none, model := none }

/-- Witness for C6: a delegate invoking "delegate" is dropped by name. -/
theorem depth_guard_spec_witness :
    DepthGuardHandler.intercept "x" delegatingWorkerCtx =
      InterventionVerdict.Drop (depthGuardMsg "worker-1") :=
  depth_guard_spec.2.2.1 "x" delegatingWorkerCtx "worker-1" rfl rfl rfl

/-- C10: a ToolInvocation under a present agent identity whose context carries
no tool name is allowed; every `Drop` produced by `DepthGuardHandler.intercept`
comes from a ToolInvocation with a present identity and tool name exactly
"delegate". -/
theorem depth_guard_no_toolname_spec :
    (∀ c ctx a, ctx.direction = MessageDirection.ToolInvocation →
        ctx.agent_id = some a → ctx.tool_name = none →
        DepthGuardHandler.intercept c ctx = InterventionVerdict.Allow)
    ∧ (∀ c ctx m, DepthGuardHandler.intercept c ctx = InterventionVerdict.Drop m →
        ctx.direction = MessageDirection.ToolInvocation
          ∧ ctx.tool_name = some "delegate"
          ∧ ∃ a, ctx.agent_id = some a ∧ m = depthGuardMsg a) := by
  constructor
  · intro c ctx a hd ha ht
    simp [DepthGuardHandler.intercept, hd, ha, ht]
  · intro c ctx m h
    by_cases hd : ctx.direction = MessageDirection.ToolInvocation
    · cases ha : ctx.agent_id with
      | none => simp [DepthGuardHandler.intercept, hd, ha] at h
      | some a =>
        cases ht : ctx.tool_name with
        | none => simp [DepthGuardHandler.intercept, hd, ha, ht] at h
        | some t =>
          by_cases htd : t = "delegate"
          · subst htd
            refine ⟨hd, rfl, a, rfl, ?_⟩
            simp [DepthGuardHandler.intercept, hd, ha, ht] at h
            exact h.symm
          · simp [DepthGuardHandler.intercept, hd, ha, ht, htd] at h
    · simp [DepthGuardHandler.intercept, hd] at h

/-- A ToolInvocation context with an agent identity but no tool name. -/
def namelessToolCtx : InterventionContext :=
  { direction := MessageDirection.ToolInvocation, agent_id := some "worker-1",
    tool_name := none, provider := none, model := none }

/-- Witness for C10: identity present, tool name absent, verdict Allow. -/
theorem depth_guard_no_toolname_spec_witness :
    DepthGuardHandler.intercept "x" namelessToolCtx = InterventionVerdict.Allow :=
  depth_guard_no_toolname_spec.1 "x" namelessToolCtx "worker-1" rfl rfl rfl

/-- A compiled pattern, as `TripwireHandler` uses one: the external regex
crate is abstracted as the pattern's source string together with its match
predicate. -/
structure Regex where
  src : String
  is_match : String → Bool

/-- `TripwireHandler` (handlers.rs): the compiled patterns, in registration
order. -/
structure TripwireHandler where
  patterns : List Regex

/-- The `Halt` reason built by `TripwireHandler::intercept` from the matched
pattern's source. -/
def tripwireMsg (src : String) : String :=
  "TRIPWIRE: content matched forbidden pattern /" ++ src ++ "/"

/-- `TripwireHandler::from_strings` (handlers.rs): compile each configured
string, keeping the successes and skipping (with a warning) the failures;
construction itself never fails. -/
def TripwireHandler.from_strings (compile : String → Option Regex)
    (patterns : List String) : TripwireHandler :=
  ⟨patterns.filterMap compile⟩

/-- The pattern loop of `TripwireHandler::intercept`: halt on the first
matching pattern, allow when none matches. -/
def tripwireScan (content : String) : List Regex → InterventionVerdict
  | [] => InterventionVerdict.Allow
  | p :: rest =>
    if p.is_match content then InterventionVerdict.Halt (tripwireMsg p.src)
    else tripwireScan content rest

/-- `TripwireHandler::intercept` (handlers.rs): any direction, test the
content against every kept pattern in registration order. -/
def TripwireHandler.intercept (h : TripwireHandler) (content : String)
    (ctx : InterventionContext) : InterventionVerdict :=
  tripwireScan content h.patterns

lemma tripwireScan_halt (content : String) (pre : List Regex) (p : Regex)
    (post : List Regex) (hmatch : p.is_match content = true)
    (hpre : ∀ q ∈ pre, q.is_match content = false) :
    tripwireScan content (pre ++ p :: post) =
      InterventionVerdict.Halt (tripwireMsg p.src) := by
  induction pre with
  | nil => simp [tripwireScan, hmatch]
  | cons q pre ih =>
    have hq : q.is_match content = false := hpre q (List.mem_cons_self q pre)
    simp only [List.cons_append, tripwireScan, hq]
    exact ih fun r hr => hpre r (List.mem_cons_of_mem q hr)

lemma tripwireScan_allow (content : String) (l : List Regex)
    (hl : ∀ p ∈ l, p.is_match content = false) :
    tripwireScan content l = InterventionVerdict.Allow := by
  induction l with
  | nil => rfl
  | cons p rest ih =>
    have hp : p.is_match content = false := hl p (List.mem_cons_self p rest)
    simp only [tripwireScan, hp]
    exact ih fun r hr => hl r (List.mem_cons_of_mem p hr)

lemma tripwireScan_halt_inv (content : String) (l : List Regex) (m : String)
    (h : tripwireScan content l = InterventionVerdict.Halt m) :
    ∃ r ∈ l, r.is_match content = true ∧ m = tripwireMsg r.src := by
  induction l with
  | nil => simp [tripwireScan] at h
  | cons p rest ih =>
    by_cases hp : p.is_match content = true
    · simp only [tripwireScan, hp, if_true] at h
      injection h with h1
      exact ⟨p, List.mem_cons_self p rest, hp, h1.symm⟩
    · simp only [tripwireScan, eq_false_of_ne_true hp, if_false] at h
      obtain ⟨r, hr, hrm, hm⟩ := ih h
      exact ⟨r, List.mem_cons_of_mem p hr, hrm, hm⟩

/-- C5: `TripwireHandler.from_strings` never fails — it keeps exactly the
configured strings that compile; `intercept`, for any direction, halts naming
the first matching kept pattern and allows when no kept pattern matches; any
halt names a pattern that compiled from a configured string, so skipped
strings can never cause a halt. -/
theorem tripwire_spec :
    (∀ (compile : String → Option Regex) (ps : List String),
        (TripwireHandler.from_strings compile ps).patterns = ps.filterMap compile)
    ∧ (∀ (compile : String → Option Regex) (ps : List String) (r : Regex),
        r ∈ (TripwireHandler.from_strings compile ps).patterns ↔
          ∃ p ∈ ps, compile p = some r)
    ∧ (∀ (h : TripwireHandler) content ctx pre p post,
        h.patterns = pre ++ p :: post → p.is_match content = true →
        (∀ q ∈ pre, q.is_match content = false) →
        h.intercept content ctx = InterventionVerdict.Halt (tripwireMsg p.src))
    ∧ (∀ (h : TripwireHandler) content ctx,
        (∀ p ∈ h.patterns, p.is_match content = false) →
        h.intercept content ctx = InterventionVerdict.Allow)
    ∧ (∀ (compile : String → Option Regex) (ps : List String) content ctx m,
        (TripwireHandler.from_strings compile ps).intercept content ctx =
          InterventionVerdict.Halt m →
        ∃ p r, p ∈ ps ∧ compile p = some r ∧ r.is_match content = true
          ∧ m = tripwireMsg r.src) := by
  refine ⟨?_, ?_, ?_, ?_, ?_⟩
  · intro compile ps
    rfl
  · intro compile ps r
    simp [TripwireHandler.from_strings, List.mem_filterMap]
  · intro h content ctx pre p post hsplit hmatch hpre
    rw [TripwireHandler.intercept, hsplit]
    exact tripwireScan_halt content pre p post hmatch hpre
  · intro h content ctx hl
    exact tripwireScan_allow content h.patterns hl
  · intro compile ps content ctx m hhalt
    obtain ⟨r, hr, hrm, hm⟩ :=
      tripwireScan_halt_inv content (ps.filterMap compile) m hhalt
    obtain ⟨p, hp, hpc⟩ := List.mem_filterMap.mp hr
    exact ⟨p, r, hp, hpc, hrm, hm⟩

/-- Witness for C5: a handler whose patterns all fail to compile allows any
content. -/
theorem tripwire_spec_witness :
    (TripwireHandler.from_strings (fun _ => none) ["["]).intercept "rm" inboundCtx =
      InterventionVerdict.Allow :=
  tripwire_spec.2.2.2.1 (TripwireHandler.from_strings (fun _ => none) ["["]) "rm"
    inboundCtx (by simp [TripwireHandler.from_strings])

/-- Accumulator loop for `splitWhitespace`: `cur` holds the characters of the
word in progress, reversed. -/
def wordsAux : List Char → List Char → List String
  | [], cur => if cur = [] then [] else [String.mk cur.reverse]
  | c :: cs, cur =>
    if c.isWhitespace then
      if cur = [] then wordsAux cs []
      else String.mk cur.reverse :: wordsAux cs []
    else wordsAux cs (c :: cur)

/-- Rust `str::split_whitespace`: the maximal whitespace-free runs of the
string, in order; runs of whitespace produce no empty words. -/
def splitWhitespace (s : String) : List String := wordsAux s.data []

/-- Rust `words.windows(3).map(|w| w.join(" "))`: every contiguous 3-word
window, joined by single spaces. -/
def windows3 : List String → List String
  | a :: b :: c :: rest => (a ++ " " ++ b ++ " " ++ c) :: windows3 (b :: c :: rest)
  | _ => []

/-- The `trigrams` closure of `ConvergenceDetector::jaccard_trigrams`: the
comparison set of a string — its words when there are fewer than 3 of them,
its 3-word windows otherwise (duplicates collapse in the set). -/
def trigrams (s : String) : Finset String :=
  if (splitWhitespace s).length < 3 then (splitWhitespace s).toFinset
  else (windows3 (splitWhitespace s)).toFinset

/-- `ConvergenceDetector::jaccard_trigrams` (handlers.rs): Jaccard index of
the two comparison sets, 1 when both are empty, 0 on an empty union. -/
def ConvergenceDetector.jaccard_trigrams (a b : String) : ℚ :=
  if trigrams a = ∅ ∧ trigrams b = ∅ then 1
  else if (trigrams a ∪ trigrams b).card = 0 then 0
  else ((trigrams a ∩ trigrams b).card : ℚ) / ((trigrams a ∪ trigrams b).card : ℚ)

/-- Round to the nearest integer with ties to even, the rounding Rust's
`{:.0}` float formatting performs. -/
def roundHalfEven (q : ℚ) : ℤ :=
  if q - ⌊q⌋ < 1 / 2 then ⌊q⌋
  else if 1 / 2 < q - ⌊q⌋ then ⌊q⌋ + 1
  else if ⌊q⌋ % 2 = 0 then ⌊q⌋ else ⌊q⌋ + 1

/-- The warning block `ConvergenceDetector::intercept` prepends on a
detected convergence, stating the similarity percentage. -/
def warningBlock (similarity : ℚ) : String :=
  "[CONVERGENCE WARNING: This delegate response has " ++
    toString (roundHalfEven (similarity * 100)) ++
    "% similarity with a prior delegate response. Unanimous agreement is a failure signal. Re-examine with explicit skepticism.]\n\n"

/-- The full `Modify` payload: warning block followed by the original
content. -/
def convergenceWarning (similarity : ℚ) (content : String) : String :=
  warningBlock similarity ++ content

/-- `ConvergenceDetector` (handlers.rs): clamped similarity threshold and the
outputs collected in the current evaluation round. -/
structure ConvergenceDetector where
  threshold : ℚ
  outputs : List String
deriving DecidableEq

/-- `ConvergenceDetector::new`: `threshold.clamp(0.0, 1.0)`, empty history. -/
def ConvergenceDetector.new (threshold : ℚ) : ConvergenceDetector :=
  ⟨if threshold < 0 then 0 else if 1 < threshold then 1 else threshold, []⟩

/-- `ConvergenceDetector::reset`: clear the collected outputs. -/
def ConvergenceDetector.reset (d : ConvergenceDetector) : ConvergenceDetector :=
  ⟨d.threshold, []⟩

/-- The loop of `ConvergenceDetector::check_convergence`: the similarity of
the first stored output (in insertion order) whose Jaccard similarity with
the new output reaches the threshold. -/
def firstConvergence (threshold : ℚ) (new_output : String) : List String → Option ℚ
  | [] => none
  | existing :: rest =>
    if threshold ≤ ConvergenceDetector.jaccard_trigrams existing new_output then
      some (ConvergenceDetector.jaccard_trigrams existing new_output)
    else firstConvergence threshold new_output rest

/-- `ConvergenceDetector::check_convergence` (handlers.rs). -/
def ConvergenceDetector.check_convergence (d : ConvergenceDetector)
    (new_output : String) : Option ℚ :=
  firstConvergence d.threshold new_output d.outputs

/-- `ConvergenceDetector::intercept` (handlers.rs): only ToolResults of the
"delegate" tool are inspected; the content is recorded after the comparison
in both outcomes; on a detected convergence the verdict is `Modify` with the
warning prepended. -/
def ConvergenceDetector.intercept (d : ConvergenceDetector) (content : String)
    (ctx : InterventionContext) : InterventionVerdict × ConvergenceDetector :=
  if ctx.direction ≠ MessageDirection.ToolResult then (InterventionVerdict.Allow, d)
  else if ctx.tool_name ≠ some "delegate" then (InterventionVerdict.Allow, d)
  else
    match d.check_convergence content with
    | some similarity =>
        (InterventionVerdict.Modify (convergenceWarning similarity content),
         ⟨d.threshold, d.outputs ++ [content]⟩)
    | none => (InterventionVerdict.Allow, ⟨d.threshold, d.outputs ++ [content]⟩)

lemma jaccard_comm (a b : String) :
    ConvergenceDetector.jaccard_trigrams a b = ConvergenceDetector.jaccard_trigrams b a := by
  unfold ConvergenceDetector.jaccard_trigrams
  by_cases h : trigrams a = ∅ ∧ trigrams b = ∅
  · rw [if_pos h, if_pos ⟨h.2, h.1⟩]
  · have h2 : ¬ (trigrams b = ∅ ∧ trigrams a = ∅) := fun hc => h ⟨hc.2, hc.1⟩
    rw [if_neg h, if_neg h2, Finset.union_comm, Finset.inter_comm]

lemma jaccard_self (s : String) : ConvergenceDetector.jaccard_trigrams s s = 1 := by
  unfold ConvergenceDetector.jaccard_trigrams
  by_cases h : trigrams s = ∅
  · rw [if_pos ⟨h, h⟩]
  · rw [if_neg fun hc => h hc.1, Finset.union_self, Finset.inter_self]
    have hc : (trigrams s).card ≠ 0 := by
      rw [Ne, Finset.card_eq_zero]
      exact h
    rw [if_neg hc]
    exact div_self (by exact_mod_cast hc)

lemma jaccard_nonneg (a b : String) : 0 ≤ ConvergenceDetector.jaccard_trigrams a b := by
  unfold ConvergenceDetector.jaccard_trigrams
  split_ifs with h1 h2
  · norm_num
  · norm_num
  · positivity

lemma jaccard_le_one (a b : String) : ConvergenceDetector.jaccard_trigrams a b ≤ 1 := by
  unfold ConvergenceDetector.jaccard_trigrams
  split_ifs with h1 h2
  · norm_num
  · norm_num
  · rw [div_le_one (by exact_mod_cast Nat.pos_of_ne_zero h2)]
    exact_mod_cast Finset.card_le_card Finset.inter_subset_union

/-- C3: the comparison set of a string is its word set below 3 words and its
3-word-window set otherwise; the similarity is symmetric, lies in `[0, 1]`,
equals 1 on equal strings, is 1 when both comparison sets are empty, and is
`|A ∩ B| / |A ∪ B|` with a nonzero union in every other case (so the 0 guard
for an empty union is unreachable there). -/
theorem jaccard_trigrams_spec :
    (∀ s : String, (splitWhitespace s).length < 3 →
        trigrams s = (splitWhitespace s).toFinset)
    ∧ (∀ s : String, ¬ (splitWhitespace s).length < 3 →
        trigrams s = (windows3 (splitWhitespace s)).toFinset)
    ∧ (∀ a b, ConvergenceDetector.jaccard_trigrams a b =
        ConvergenceDetector.jaccard_trigrams b a)
    ∧ (∀ a b, 0 ≤ ConvergenceDetector.jaccard_trigrams a b
        ∧ ConvergenceDetector.jaccard_trigrams a b ≤ 1)
    ∧ (∀ s, ConvergenceDetector.jaccard_trigrams s s = 1)
    ∧ (∀ a b, trigrams a = ∅ → trigrams b = ∅ →
        ConvergenceDetector.jaccard_trigrams a b = 1)
    ∧ (∀ a b, ¬ (trigrams a = ∅ ∧ trigrams b = ∅) →
        (trigrams a ∪ trigrams b).card ≠ 0
        ∧ ConvergenceDetector.jaccard_trigrams a b =
            ((trigrams a ∩ trigrams b).card : ℚ) /
              ((trigrams a ∪ trigrams b).card : ℚ)) := by
  refine ⟨?_, ?_, jaccard_comm, fun a b => ⟨jaccard_nonneg a b, jaccard_le_one a b⟩,
    jaccard_self, ?_, ?_⟩
  · intro s h
    simp [trigrams, h]
  · intro s h
    simp [trigrams, h]
  · intro a b ha hb
    unfold ConvergenceDetector.jaccard_trigrams
    rw [if_pos ⟨ha, hb⟩]
  · intro a b h
    have hne : (trigrams a ∪ trigrams b).card ≠ 0 := by
      rw [Ne, Finset.card_eq_zero, Finset.union_eq_empty]
      exact h
    refine ⟨hne, ?_⟩
    unfold ConvergenceDetector.jaccard_trigrams
    rw [if_neg h, if_neg hne]

/-- Witness for C3: a two-word string is below the trigram threshold and its
comparison set is its word set. -/
theorem jaccard_trigrams_spec_witness :
    (splitWhitespace "a b").length < 3
    ∧ trigrams "a b" = (splitWhitespace "a b").toFinset :=
  ⟨by decide, jaccard_trigrams_spec.1 "a b" (by decide)⟩

/-- An `f64` threshold value as `ConvergenceDetector::new` receives it: a
finite value (modelled as an exact rational) or NaN. -/
inductive Float64 where
  | val : ℚ → Float64
  | nan : Float64
deriving DecidableEq

/-- IEEE 754 `<` on `f64`: false whenever an operand is NaN. -/
def Float64.flt : Float64 → Float64 → Bool
  | Float64.val a, Float64.val b => decide (a < b)
  | _, _ => false

/-- IEEE 754 `>` on `f64`: false whenever an operand is NaN. -/
def Float64.fgt : Float64 → Float64 → Bool
  | Float64.val a, Float64.val b => decide (b < a)
  | _, _ => false

/-- IEEE 754 `<=` on `f64`: false whenever an operand is NaN. -/
def Float64.fle : Float64 → Float64 → Bool
  | Float64.val a, Float64.val b => decide (a ≤ b)
  | _, _ => false

/-- Rust `f64::clamp(0.0, 1.0)`: `if self < min { self = min } if self > max
{ self = max }` — on NaN both comparisons are false, so NaN propagates. -/
def Float64.clamp01 (x : Float64) : Float64 :=
  let x1 := if x.flt (Float64.val 0) then Float64.val 0 else x
  if x1.fgt (Float64.val 1) then Float64.val 1 else x1

/-- The threshold field computed by `ConvergenceDetector::new`
(handlers.rs:169, `threshold.clamp(0.0, 1.0)`) at `f64` level. -/
def ConvergenceDetector.storedThreshold (threshold : Float64) : Float64 :=
  threshold.clamp01

/-- C8 (amended): for every finite (non-NaN) threshold, the `f64` clamp of
`ConvergenceDetector::new` agrees with the rational-level constructor and
stores a threshold in `[0, 1]` — below 0 becomes 0, above 1 becomes 1,
in-range values are kept — with no construction-time rejection and an empty
initial history; a NaN threshold propagates through the clamp and is stored
as NaN. -/
theorem convergence_new_clamp_spec :
    (∀ q : ℚ, ConvergenceDetector.storedThreshold (Float64.val q) =
        Float64.val (ConvergenceDetector.new q).threshold)
    ∧ (∀ t : ℚ, 0 ≤ (ConvergenceDetector.new t).threshold
        ∧ (ConvergenceDetector.new t).threshold ≤ 1
        ∧ (t < 0 → (ConvergenceDetector.new t).threshold = 0)
        ∧ (1 < t → (ConvergenceDetector.new t).threshold = 1)
        ∧ (0 ≤ t → t ≤ 1 → (ConvergenceDetector.new t).threshold = t)
        ∧ (ConvergenceDetector.new t).outputs = [])
    ∧ ConvergenceDetector.storedThreshold Float64.nan = Float64.nan := by
  refine ⟨?_, ?_, rfl⟩
  · intro q
    by_cases h0 : q < 0
    · simp [ConvergenceDetector.storedThreshold, Float64.clamp01, Float64.flt,
        Float64.fgt, ConvergenceDetector.new, h0]
    · by_cases h1 : 1 < q
      · simp [ConvergenceDetector.storedThreshold, Float64.clamp01, Float64.flt,
          Float64.fgt, ConvergenceDetector.new, h0, h1]
      · simp [ConvergenceDetector.storedThreshold, Float64.clamp01, Float64.flt,
          Float64.fgt, ConvergenceDetector.new, h0, h1]
  · intro t
    have hth : (ConvergenceDetector.new t).threshold =
        if t < 0 then 0 else if 1 < t then 1 else t := rfl
    refine ⟨?_, ?_, ?_, ?_, ?_, rfl⟩ <;> rw [hth] <;> split_ifs <;> intros <;> linarith

/-- Witness for C8: a finite threshold of 2 is clamped to 1, at both the
`f64` level and the rational level. -/
theorem convergence_new_clamp_spec_witness :
    ConvergenceDetector.storedThreshold (Float64.val 2) =
      Float64.val (ConvergenceDetector.new 2).threshold
    ∧ (ConvergenceDetector.new 2).threshold = 1 :=
  ⟨convergence_new_clamp_spec.1 2, (convergence_new_clamp_spec.2.1 2).2.2.2.1 (by norm_num)⟩

/-- Counterexample for C8 as stated: at threshold NaN the stored `f64`
threshold is NaN, which does not lie within `[0, 1]` (both bounding
comparisons are false), so not every floating-point input yields an in-range
threshold. -/
theorem convergence_new_nan_counterexample :
    ConvergenceDetector.storedThreshold Float64.nan = Float64.nan
    ∧ ¬ ((Float64.val 0).fle (ConvergenceDetector.storedThreshold Float64.nan) = true
        ∧ (ConvergenceDetector.storedThreshold Float64.nan).fle (Float64.val 1) = true) := by
  refine ⟨rfl, ?_⟩
  rintro ⟨h0, -⟩
  simp [ConvergenceDetector.storedThreshold, Float64.clamp01, Float64.flt,
    Float64.fgt, Float64.fle] at h0

lemma firstConvergence_some_iff (t : ℚ) (c : String) (l : List String) (s : ℚ) :
    firstConvergence t c l = some s ↔
      ∃ pre x post, l = pre ++ x :: post
        ∧ s = ConvergenceDetector.jaccard_trigrams x c
        ∧ t ≤ s
        ∧ ∀ y ∈ pre, ConvergenceDetector.jaccard_trigrams y c < t := by
  induction l with
  | nil =>
    constructor
    · intro h
      simp [firstConvergence] at h
    · rintro ⟨pre, x, post, hl, -, -, -⟩
      have := congrArg List.length hl
      simp at this
      omega
  | cons a l ih =>
    by_cases ha : t ≤ ConvergenceDetector.jaccard_trigrams a c
    · simp only [firstConvergence, if_pos ha]
      constructor
      · intro h
        injection h with h1
        exact ⟨[], a, l, rfl, h1.symm, h1 ▸ ha, by simp⟩
      · rintro ⟨pre, x, post, hl, hs, hts, hpre⟩
        cases pre with
        | nil =>
          simp only [List.nil_append, List.cons.injEq] at hl
          rw [hl.1, hs]
        | cons y pre =>
          simp only [List.cons_append, List.cons.injEq] at hl
          have hy := hpre y (List.mem_cons_self y pre)
          rw [← hl.1] at hy
          exact absurd ha (not_le.mpr hy)
    · simp only [firstConvergence, if_neg ha]
      rw [ih]
      constructor
      · rintro ⟨pre, x, post, hl, hs, hts, hpre⟩
        refine ⟨a :: pre, x, post, by rw [hl, List.cons_append], hs, hts, ?_⟩
        intro y hy
        rcases List.mem_cons.mp hy with hya | hyp
        · rw [hya]
          exact not_le.mp ha
        · exact hpre y hyp
      · rintro ⟨pre, x, post, hl, hs, hts, hpre⟩
        cases pre with
        | nil =>
          simp only [List.nil_append, List.cons.injEq] at hl
          rw [hl.1] at ha
          rw [hs] at hts
          exact absurd hts ha
        | cons y pre =>
          simp only [List.cons_append, List.cons.injEq] at hl
          exact ⟨pre, x, post, hl.2, hs, hts,
            fun z hz => hpre z (List.mem_cons_of_mem y hz)⟩

lemma roundHalfEven_nearest (q : ℚ) : |(roundHalfEven q : ℚ) - q| ≤ 1 / 2 := by
  have h0 : (⌊q⌋ : ℚ) ≤ q := Int.floor_le q
  have h1 : q < ⌊q⌋ + 1 := Int.lt_floor_add_one q
  unfold roundHalfEven
  split_ifs with hlt hgt heven
  · rw [abs_le]
    constructor <;> linarith
  · rw [abs_le]
    push_cast
    constructor <;> linarith
  · rw [abs_le]
    constructor <;> linarith
  · rw [abs_le]
    push_cast
    constructor <;> linarith

/-- C2: `ConvergenceDetector.intercept` ignores (verdict `Allow`, history
untouched) every call that is not a ToolResult of the tool named exactly
"delegate"; on a qualifying call the comparison, via `check_convergence`,
returns the similarity of the first stored output in insertion order whose
Jaccard similarity reaches the threshold (not the maximum); on a hit the
verdict is `Modify` prefixing the content with a warning stating the
percentage rounded to the nearest integer (ties to even, as Rust's `{:.0}`
formatting rounds), otherwise `Allow`; either way the content is appended to
the history exactly once, after the comparison; `reset` empties the history,
so the next qualifying call allows. -/
theorem convergence_intercept_spec :
    (∀ (d : ConvergenceDetector) c ctx,
        ctx.direction ≠ MessageDirection.ToolResult ∨ ctx.tool_name ≠ some "delegate" →
        d.intercept c ctx = (InterventionVerdict.Allow, d))
    ∧ (∀ (d : ConvergenceDetector) c s,
        d.check_convergence c = some s ↔
          ∃ pre x post, d.outputs = pre ++ x :: post
            ∧ s = ConvergenceDetector.jaccard_trigrams x c
            ∧ d.threshold ≤ s
            ∧ ∀ y ∈ pre, ConvergenceDetector.jaccard_trigrams y c < d.threshold)
    ∧ (∀ (d : ConvergenceDetector) c ctx,
        ctx.direction = MessageDirection.ToolResult →
        ctx.tool_name = some "delegate" →
        (∀ s, d.check_convergence c = some s →
            d.intercept c ctx =
              (InterventionVerdict.Modify (convergenceWarning s c),
               ⟨d.threshold, d.outputs ++ [c]⟩))
        ∧ (d.check_convergence c = none →
            d.intercept c ctx = (InterventionVerdict.Allow, ⟨d.threshold, d.outputs ++ [c]⟩)))
    ∧ (∀ s c, convergenceWarning s c = warningBlock s ++ c)
    ∧ (∀ q : ℚ, |(roundHalfEven q : ℚ) - q| ≤ 1 / 2)
    ∧ (∀ (d : ConvergenceDetector), d.reset = ⟨d.threshold, []⟩
        ∧ ∀ c ctx, ctx.direction = MessageDirection.ToolResult →
            ctx.tool_name = some "delegate" →
            d.reset.intercept c ctx = (InterventionVerdict.Allow, ⟨d.threshold, [c]⟩)) := by
  refine ⟨?_, ?_, ?_, fun s c => rfl, roundHalfEven_nearest, ?_⟩
  · intro d c ctx h
    rcases h with h | h
    · simp [ConvergenceDetector.intercept, h]
    · by_cases hd : ctx.direction = MessageDirection.ToolResult
      · simp [ConvergenceDetector.intercept, hd, h]
      · simp [ConvergenceDetector.intercept, hd]
  · intro d c s
    exact firstConvergence_some_iff d.threshold c d.outputs s
  · intro d c ctx hd htool
    constructor
    · intro s hs
      simp [ConvergenceDetector.intercept, hd, htool, hs]
    · intro hnone
      simp [ConvergenceDetector.intercept, hd, htool, hnone]
  · intro d
    refine ⟨rfl, ?_⟩
    intro c ctx hd htool
    have hnone : ConvergenceDetector.check_convergence ⟨d.threshold, []⟩ c = none := rfl
    simp [ConvergenceDetector.intercept, ConvergenceDetector.reset, hd, htool, hnone]

/-- A ToolResult context for the "delegate" tool. -/
def delegateResultCtx : InterventionContext :=
  { direction := MessageDirection.ToolResult, agent_id := none,
    tool_name := some "delegate", provider := none, model := none }

/-- Witness for C2: after a reset, a qualifying delegate ToolResult is
allowed and becomes the sole history entry. -/
theorem convergence_intercept_spec_witness :
    (ConvergenceDetector.mk (7 / 10) ["old output"]).reset.intercept "new output"
        delegateResultCtx =
      (InterventionVerdict.Allow, ⟨7 / 10, ["new output"]⟩) :=
  (convergence_intercept_spec.2.2.2.2.2
      (ConvergenceDetector.mk (7 / 10) ["old output"])).2
    "new output" delegateResultCtx rfl rfl
